import Mathlib

/-!
Verification development for the ARIMA trading core of this repository
(`src/trading/arima_algorithm.py` and `src/trading/arima_portfolio_integration.py`).

The Python code is shallowly embedded: prices, capital and statistics are
rationals (the source uses floats but performs only field operations in the
parts verified here), Python `int(...)` truncation is `pyInt`, pandas frames
become lists, and the numerical model-fitting library (statsmodels) is
abstracted as explicit function parameters (`fit` returning an optional
(AIC, BIC) pair for a candidate order, `fitForecast` returning either the
fixed forecast of the model fitted on the training window or the exception
the fitting pipeline raised there).  Fallible paths (Python exceptions) are
`Except`/`Option` values.
-/

namespace ARIMA

/-- Python `int(q)` for a rational: truncation toward zero.  For a rational
`q = num/den` with `den > 0` this is `Int.tdiv num den`. -/
def pyInt (q : ℚ) : ℤ := q.num.tdiv q.den

/-- Trading actions from `generate_signals` (`'BUY'`, `'SELL'`, `'HOLD'`). -/
inductive Action where
  | BUY
  | SELL
  | HOLD
deriving DecidableEq, Repr

/-- The `reason` strings of `generate_signals`, abstracted to the branch
taken (the source interpolates the numeric return into the message):
`noPredictions` is the literal `'No predictions available'`,
`exceedsThreshold` is `'Expected return of ... exceeds threshold'`,
`lossExceedsThreshold` is `'Expected loss of ... exceeds threshold'`,
`withinThreshold` is `'Expected return of ... within threshold'`. -/
inductive Reason where
  | noPredictions
  | exceedsThreshold
  | lossExceedsThreshold
  | withinThreshold
deriving DecidableEq, Repr

/-- The signal dict of `generate_signals`.  The early-return signal has only
`action`, `confidence` and `reason` keys; the optional fields model the
keys that are present only in the full signals. -/
structure Signal where
  action : Action
  confidence : ℚ
  expected_return : Option ℚ
  predicted_price : Option ℚ
  current_price : Option ℚ
  reason : Reason
deriving DecidableEq, Repr

/-- The early-return value
`{'action': 'HOLD', 'confidence': 0, 'reason': 'No predictions available'}`. -/
def no_pred_signal : Signal :=
  { action := .HOLD, confidence := 0, expected_return := none,
    predicted_price := none, current_price := none, reason := .noPredictions }

/-- The non-degenerate body of `ARIMATradingAlgorithm.generate_signals`
(lines 230-263): `predicted_price = predictions['prediction'].iloc[-1]`,
`expected_return = (predicted_price - current_price) / current_price`,
then the three-way threshold comparison.  The caller guarantees `preds`
nonempty, so `iloc[-1]` is `getLastD`. -/
def signal_core (confidence_threshold current_price : ℚ) (preds : List ℚ) : Signal :=
  let predicted_price := preds.getLastD 0
  let expected_return := (predicted_price - current_price) / current_price
  if confidence_threshold < expected_return then
    { action := .BUY, confidence := min (expected_return / confidence_threshold) 1,
      expected_return := some expected_return, predicted_price := some predicted_price,
      current_price := some current_price, reason := .exceedsThreshold }
  else if expected_return < -confidence_threshold then
    { action := .SELL, confidence := min (|expected_return| / confidence_threshold) 1,
      expected_return := some expected_return, predicted_price := some predicted_price,
      current_price := some current_price, reason := .lossExceedsThreshold }
  else
    { action := .HOLD, confidence := 1 - |expected_return| / confidence_threshold,
      expected_return := some expected_return, predicted_price := some predicted_price,
      current_price := some current_price, reason := .withinThreshold }

/-- `ARIMATradingAlgorithm.generate_signals` (lines 213-270).  `stored` is
`self.predictions`, `signals_log` is `self.signals` (its timestamped entries
are modelled by the signal they carry), `preds_arg` is the `predictions`
argument (`none` = Python `None`).  Returns the signal together with the
updated `self.signals` list. -/
def generate_signals (confidence_threshold : ℚ) (stored : Option (List ℚ))
    (signals_log : List Signal) (current_price : ℚ) (preds_arg : Option (List ℚ)) :
    Signal × List Signal :=
  let predictions := match preds_arg with
    | none => stored
    | some l => some l
  match predictions with
  | none => (no_pred_signal, signals_log)
  | some l =>
    if l.isEmpty then (no_pred_signal, signals_log)
    else
      let s := signal_core confidence_threshold current_price l
      (s, signals_log ++ [s])

/-- A trade record dict appended to `portfolio['trades']` in
`ARIMATradingAlgorithm.backtest` (lines 328-347). -/
structure Trade where
  date : ℕ
  action : Action
  price : ℚ
  shares : ℤ
  value : ℚ
deriving DecidableEq, Repr

/-- One iteration of the backtest trading loop, with the portfolio state
before and after the trade, the appended `total_value`, and the
recorded trade (if any). -/
structure StepRecord where
  price : ℚ
  cashBefore : ℚ
  sharesBefore : ℤ
  cashAfter : ℚ
  sharesAfter : ℤ
  value : ℚ
  trade : Option Trade
deriving DecidableEq, Repr

/-- The trade-execution branch of `ARIMATradingAlgorithm.backtest`
(lines 319-349): BUY spends `int(cash / price)` whole shares when
`cash > price`, SELL liquidates all shares when `shares > 0`, anything
else leaves the portfolio unchanged. -/
def trade_exec (a : Action) (i : ℕ) (cash : ℚ) (shares : ℤ) (price : ℚ) :
    ℚ × ℤ × Option Trade :=
  if a = .BUY ∧ price < cash then
    let shares_to_buy := pyInt (cash / price)
    if 0 < shares_to_buy then
      let cost := (shares_to_buy : ℚ) * price
      (cash - cost, shares + shares_to_buy,
        some { date := i, action := .BUY, price := price, shares := shares_to_buy,
               value := cost })
    else (cash, shares, none)
  else if a = .SELL ∧ 0 < shares then
    let revenue := (shares : ℚ) * price
    (cash + revenue, 0,
      some { date := i, action := .SELL, price := price, shares := shares,
             value := revenue })
  else (cash, shares, none)

/-- The simulation loop of `ARIMATradingAlgorithm.backtest` (lines 306-353),
one `StepRecord` per simulated day.  The fitted model is fixed, so the
forecast passed to `generate_signals` is the same list `forecast` at every
step; `portfolio['total_value'] = cash + shares * price` is appended after
the trade. -/
def simulate (confidence_threshold : ℚ) (forecast : List ℚ) :
    ℚ → ℤ → ℕ → List ℚ → List StepRecord
  | _, _, _, [] => []
  | cash, shares, i, price :: rest =>
    let a := ((generate_signals confidence_threshold none [] price (some forecast)).1).action
    let r := trade_exec a i cash shares price
    { price := price, cashBefore := cash, sharesBefore := shares,
      cashAfter := r.1, sharesAfter := r.2.1,
      value := r.1 + (r.2.1 : ℚ) * price, trade := r.2.2 }
      :: simulate confidence_threshold forecast r.1 r.2.1 (i + 1) rest

/-- `split_idx = int(len(price_data) * train_size)` (line 285). -/
def split_index (prices : List ℚ) (train_size : ℚ) : ℕ :=
  (pyInt ((prices.length : ℚ) * train_size)).toNat

/-- The step records produced by one `backtest` run: the model is fitted on
`train = prices[:split_idx]`, abstracted as `fitForecast train` — `.ok fc`
is the fixed `horizon`-step forecast of a successfully fitted model,
`.error e` an exception raised inside fitting (`adfuller`'s
`ValueError('Invalid input, x is constant')` on a degenerate train window,
statsmodels non-convergence, or the `AttributeError` from
`self.model.summary()` when no grid candidate converged).  When fitting
raises, the trading loop never runs; otherwise it runs over
`range(len(test) - horizon)` with `current_price = test[i]`. -/
def backtest_records (fitForecast : List ℚ → Except String (List ℚ))
    (confidence_threshold : ℚ) (horizon : ℕ) (prices : List ℚ)
    (train_size initial_capital : ℚ) : List StepRecord :=
  let split := split_index prices train_size
  let train := prices.take split
  let test := prices.drop split
  match fitForecast train with
  | .error _ => []
  | .ok forecast =>
    simulate confidence_threshold forecast initial_capital 0 0
      (test.take (test.length - horizon))

/-- The results dict of `ARIMATradingAlgorithm.backtest` (lines 362-370),
together with the final portfolio state. -/
structure BacktestResult where
  initial_capital : ℚ
  final_value : ℚ
  total_return : ℚ
  buy_hold_return : ℚ
  excess_return : ℚ
  num_trades : ℕ
  cash : ℚ
  shares : ℤ
  trades : List Trade
  portfolio_values : List ℚ
deriving DecidableEq, Repr

/-- `ARIMATradingAlgorithm.backtest` (lines 272-380).  `fitForecast`
abstracts `fit_arima` followed by `self.model.forecast(steps=horizon)`; an
exception raised inside fitting (`.error`) propagates uncaught before the
trading loop, since `backtest` has no handler.  After a successful fit, an
empty test window makes `test_data.iloc[-1]` raise, modelled as an
`IndexError` value; every other path returns the results dict. -/
def backtest (fitForecast : List ℚ → Except String (List ℚ))
    (confidence_threshold : ℚ) (horizon : ℕ) (prices : List ℚ)
    (train_size initial_capital : ℚ) : Except String BacktestResult :=
  let split := split_index prices train_size
  let train := prices.take split
  let test := prices.drop split
  let recs := backtest_records fitForecast confidence_threshold horizon prices
    train_size initial_capital
  match fitForecast train with
  | .error e => .error e
  | .ok _ =>
  match test with
  | [] => .error "IndexError"
  | t0 :: rest =>
    let tlast := (t0 :: rest).getLast (List.cons_ne_nil t0 rest)
    let final_value := ((recs.getLast?).map StepRecord.value).getD initial_capital
    let total_return := (final_value - initial_capital) / initial_capital
    let buy_hold_return := (tlast - t0) / t0
    Except.ok
      { initial_capital := initial_capital, final_value := final_value,
        total_return := total_return, buy_hold_return := buy_hold_return,
        excess_return := total_return - buy_hold_return,
        num_trades := (recs.filterMap StepRecord.trade).length,
        cash := ((recs.getLast?).map StepRecord.cashAfter).getD initial_capital,
        shares := ((recs.getLast?).map StepRecord.sharesAfter).getD 0,
        trades := recs.filterMap StepRecord.trade,
        portfolio_values := recs.map StepRecord.value }

/-- An ARIMA order `(p, d, q)`. -/
structure Order where
  p : ℕ
  d : ℕ
  q : ℕ
deriving DecidableEq, Repr

/-- The differencing range of `find_optimal_order` (lines 105-108):
`[0]` when the series is stationary, `range(1, max_d + 1)` otherwise. -/
def d_range (is_stationary : Bool) (max_d : ℕ) : List ℕ :=
  if is_stationary then [0] else (List.range max_d).map (· + 1)

/-- The grid enumerated by `find_optimal_order` (lines 112-117): for `d` in
the differencing range, `p` in `range(max_p + 1)`, `q` in `range(max_q + 1)`,
skipping `(0, 0, 0)`. -/
def candidate_orders (max_p max_q : ℕ) (ds : List ℕ) : List Order :=
  ds.flatMap fun d =>
    (List.range (max_p + 1)).flatMap fun p =>
      (List.range (max_q + 1)).filterMap fun q =>
        if p = 0 ∧ d = 0 ∧ q = 0 then none else some { p := p, d := d, q := q }

/-- The loop state of `find_optimal_order` (lines 97-141).  `best_aic = none`
models the initial `np.inf` (no candidate accepted yet); `best_order` doubles
as `best_model`, since the kept model is exactly the one fitted for
`best_order`. -/
structure SearchState where
  best_aic : Option ℚ
  best_bic : Option ℚ
  best_order : Option Order
  results : List (Order × ℚ × ℚ)
deriving DecidableEq, Repr

/-- `aic < best_aic` where `none` stands for `np.inf`. -/
def beats (aic : ℚ) : Option ℚ → Bool
  | none => true
  | some b => decide (aic < b)

/-- One iteration of the grid-search loop (lines 119-141): a fit failure
(`fit o = none`, the `except: continue`) leaves the state unchanged; a
success is appended to `results` and replaces the incumbent iff its AIC is
strictly smaller. -/
def search_step (fit : Order → Option (ℚ × ℚ)) (st : SearchState) (o : Order) :
    SearchState :=
  match fit o with
  | none => st
  | some ab =>
    let st' := { st with results := st.results ++ [(o, ab.1, ab.2)] }
    if beats ab.1 st.best_aic then
      { st' with best_aic := some ab.1, best_bic := some ab.2, best_order := some o }
    else st'

/-- The initial state: `best_aic = best_bic = np.inf`, `best_order = None`,
`results = []`. -/
def init_search : SearchState :=
  { best_aic := none, best_bic := none, best_order := none, results := [] }

/-- `ARIMATradingAlgorithm.find_optimal_order` (lines 81-148), with the
statsmodels fit abstracted as `fit`, returning `(aic, bic)` on success and
`none` when `ARIMA(...).fit()` raises, and the stationarity test abstracted
as the boolean `is_stationary`. -/
def find_optimal_order (fit : Order → Option (ℚ × ℚ)) (is_stationary : Bool)
    (max_p max_d max_q : ℕ) : SearchState :=
  (candidate_orders max_p max_q (d_range is_stationary max_d)).foldl
    (search_step fit) init_search

/-- The DataFrame built by `predict_prices`: a `prediction` column and a
`date` column.  Dates are day numbers (an absolute calendar date is a
day count). -/
structure ForecastFrame where
  prediction : List ℚ
  date : List ℕ
deriving DecidableEq, Repr

/-- `ARIMATradingAlgorithm.predict_prices` (lines 177-211).  `model` is
`self.model`: `none` raises `ValueError`, otherwise its forecast for `n`
steps is the list `fc n`.  `today` is the day number of
`pd.Timestamp.today()`; the `date` column is
`pd.date_range(start=today, periods=steps, freq='D')`, i.e. `today + i`
for `i < steps`.  The day of the last observed price of the fitted series
is not an input at all: the source never consults it. -/
def predict_prices (model : Option (ℕ → List ℚ)) (prediction_horizon : ℕ)
    (today : ℕ) (steps_ahead : Option ℕ) : Except String ForecastFrame :=
  match model with
  | none => .error "Model must be fitted before prediction"
  | some fc =>
    let steps := steps_ahead.getD prediction_horizon
    .ok { prediction := fc steps,
          date := (List.range steps).map (fun i => today + i) }

/-- A trade record of `ARIMAPortfolioTrader.trading_history`: the symbol and
price of the executed trade and the `expected_return` carried by its signal
(`t['signal'].get('expected_return', 0)` defaults to 0 when absent). -/
structure TradeRec where
  symbol : String
  price : ℚ
  expected_return : Option ℚ
deriving DecidableEq, Repr

/-- The returns list of `calculate_portfolio_performance` (lines 320-326):
for consecutive trades on the same symbol,
`(curr.price - prev.price) / prev.price`. -/
def consecutive_returns : List TradeRec → List ℚ
  | a :: b :: rest =>
    (if a.symbol = b.symbol then [(b.price - a.price) / a.price] else [])
      ++ consecutive_returns (b :: rest)
  | _ => []

/-- The metrics dict of `calculate_portfolio_performance` (lines 337-345). -/
structure PerformanceMetrics where
  initial_capital : ℚ
  current_value : ℚ
  total_return : ℚ
  num_trades : ℕ
  winning_trades : ℕ
  win_rate : ℚ
  sharpe_ratio : ℚ
deriving DecidableEq, Repr

/-- `ARIMAPortfolioTrader.calculate_portfolio_performance` (lines 292-354).
`mean` and `std` abstract `np.mean` and `np.std` (the source's only uses of
them feed the non-degenerate Sharpe branch); `portfolio_details` is the
portfolio's `total_market_value`, `none` when the lookup fails (the source
then returns `{}`, modelled as `none`).  The Sharpe ratio is the plain
number `0` — not an error and not a sentinel — whenever the trading history
is empty or yields no same-symbol consecutive returns or `std ≤ 0`. -/
def calculate_portfolio_performance (mean std : List ℚ → ℚ)
    (initial_capital : ℚ) (portfolio_details : Option ℚ)
    (trading_history : List TradeRec) : Option PerformanceMetrics :=
  match portfolio_details with
  | none => none
  | some current_value =>
    let total_return := (current_value - initial_capital) / initial_capital
    let num_trades := trading_history.length
    let winning_trades :=
      (trading_history.filter fun t => 0 < t.expected_return.getD 0).length
    let sharpe_ratio :=
      if 0 < trading_history.length then
        let returns := consecutive_returns trading_history
        if returns.isEmpty then 0
        else
          let avg_return := mean returns
          let std_return := std returns
          if 0 < std_return then (avg_return - (2 / 100) / 252) / std_return else 0
      else 0
    some { initial_capital := initial_capital, current_value := current_value,
           total_return := total_return, num_trades := num_trades,
           winning_trades := winning_trades,
           win_rate := if 0 < num_trades then (winning_trades : ℚ) / num_trades else 0,
           sharpe_ratio := sharpe_ratio }

/-- Invariant of the grid-search loop after processing the orders in
`seen`: an empty incumbent means every seen candidate failed, and an
incumbent is a seen, successfully fitted candidate whose AIC is the running
minimum over all seen successes. -/
def search_inv (fit : Order → Option (ℚ × ℚ)) (seen : List Order)
    (st : SearchState) : Prop :=
  (st.best_order = none ↔ st.best_aic = none) ∧
  (st.best_order = none → ∀ o ∈ seen, fit o = none) ∧
  (∀ o, st.best_order = some o →
    o ∈ seen ∧ ∃ a b, fit o = some (a, b) ∧ st.best_aic = some a ∧
      ∀ o' ∈ seen, ∀ a' b', fit o' = some (a', b') → a ≤ a')

/-- The single step record of the flat one-step example run. -/
def rec_flat_example : StepRecord :=
  { price := 1, cashBefore := 10, sharesBefore := 0, cashAfter := 10,
    sharesAfter := 0, value := 10, trade := none }

/-- A 100-point example series: an alternating (non-constant) 80-point
train window followed by a flat 20-point test window. -/
def alt_prices : List ℚ :=
  (List.replicate 40 [1, 2]).flatten ++ List.replicate 20 3

theorem pyInt_eq_floor {q : ℚ} (h : 0 ≤ q) : pyInt q = ⌊q⌋ := by
  have hnum : 0 ≤ q.num := Rat.num_nonneg.mpr h
  have hden : (0 : ℤ) ≤ (q.den : ℤ) := Int.ofNat_nonneg q.den
  rw [pyInt, Int.tdiv_eq_ediv hnum hden, Rat.floor_def]

example :
    (generate_signals (1/50) none [] 100 (some [100, 103])).1.action = .BUY := by
  norm_num [generate_signals, signal_core]

example :
    (generate_signals (1/50) none [] 100 (some [100, 103])).1.confidence = 1 := by
  norm_num [generate_signals, signal_core]

example :
    (generate_signals (1/50) none [] 100 (some [101])).1.action = .HOLD := by
  norm_num [generate_signals, signal_core]

example :
    (generate_signals (1/50) none [] 100 (some [95])).1.action = .SELL := by
  norm_num [generate_signals, signal_core]

example :
    (generate_signals (1/50) none [] 100 none).1 = no_pred_signal := by
  norm_num [generate_signals]

example :
    (find_optimal_order
      (fun o => if o.p = 1 ∧ o.q = 0 then some (5, 7) else none)
      true 1 1 1).best_order = some { p := 1, d := 0, q := 0 } := by
  decide

example :
    (find_optimal_order (fun _ => none) true 1 1 1) = init_search := by
  decide

example :
    predict_prices (some fun n => List.replicate n 5) 5 1000 (some 3) =
      .ok { prediction := [5, 5, 5], date := [1000, 1001, 1002] } := by
  rfl

theorem generate_signals_eq_core (confidence_threshold : ℚ)
    (stored : Option (List ℚ)) (log : List Signal) (cp : ℚ) (preds : List ℚ)
    (hne : preds ≠ []) :
    generate_signals confidence_threshold stored log cp (some preds) =
      (signal_core confidence_threshold cp preds,
        log ++ [signal_core confidence_threshold cp preds]) := by
  have hemp : preds.isEmpty = false := by
    cases preds with
    | nil => exact absurd rfl hne
    | cons a l => rfl
  simp [generate_signals, hemp]

/-- Claim C2: `generate_signals` computes
`expected_return = (last forecast value - current_price) / current_price`
from only the last forecast value, and maps it to BUY with confidence
`min(er/threshold, 1)` when `er > threshold`, to SELL with confidence
`min(|er|/threshold, 1)` when `er < -threshold`, and otherwise to HOLD with
confidence `1 - |er|/threshold`, for every positive current price, nonempty
forecast and positive threshold. -/
theorem c2_generate_signals_mapping (θ cp : ℚ) (stored : Option (List ℚ))
    (log : List Signal) (preds : List ℚ)
    (hcp : 0 < cp) (hθ : 0 < θ) (hne : preds ≠ []) :
    ((generate_signals θ stored log cp (some preds)).1).expected_return =
        some ((preds.getLastD 0 - cp) / cp) ∧
    (θ < (preds.getLastD 0 - cp) / cp →
      ((generate_signals θ stored log cp (some preds)).1).action = .BUY ∧
      ((generate_signals θ stored log cp (some preds)).1).confidence =
        min ((preds.getLastD 0 - cp) / cp / θ) 1) ∧
    ((preds.getLastD 0 - cp) / cp < -θ →
      ((generate_signals θ stored log cp (some preds)).1).action = .SELL ∧
      ((generate_signals θ stored log cp (some preds)).1).confidence =
        min (|(preds.getLastD 0 - cp) / cp| / θ) 1) ∧
    (-θ ≤ (preds.getLastD 0 - cp) / cp → (preds.getLastD 0 - cp) / cp ≤ θ →
      ((generate_signals θ stored log cp (some preds)).1).action = .HOLD ∧
      ((generate_signals θ stored log cp (some preds)).1).confidence =
        1 - |(preds.getLastD 0 - cp) / cp| / θ) := by
  rw [generate_signals_eq_core θ stored log cp preds hne]
  simp only [signal_core]
  split_ifs with h1 h2
  · refine ⟨rfl, fun _ => ⟨rfl, rfl⟩, fun h => absurd h (by push_neg; nlinarith),
      fun ha hb => absurd h1 (by push_neg; nlinarith)⟩
  · refine ⟨rfl, fun h => absurd h (by push_neg; nlinarith), fun _ => ⟨rfl, rfl⟩,
      fun ha hb => absurd h2 (by push_neg; nlinarith)⟩
  · exact ⟨rfl, fun h => absurd h (by exact h1), fun h => absurd h (by exact h2),
      fun _ _ => ⟨rfl, rfl⟩⟩

/-- Witness for C2 at a concrete input: price 100, forecast ending at 103,
threshold 2%. -/
theorem c2_witness :
    ((generate_signals (1/50) none [] 100 (some [100, 103])).1).expected_return =
        some (((103:ℚ) - 100) / 100) ∧
    ((generate_signals (1/50) none [] 100 (some [100, 103])).1).action = .BUY ∧
    ((generate_signals (1/50) none [] 100 (some [100, 103])).1).confidence =
      min ((((103:ℚ) - 100) / 100) / (1/50)) 1 := by
  have h := c2_generate_signals_mapping (1/50) 100 none [] [100, 103]
    (by norm_num) (by norm_num) (by simp)
  have hgt : (1:ℚ)/50 < (([100, 103] : List ℚ).getLastD 0 - 100) / 100 := by
    norm_num
  refine ⟨?_, (h.2.1 hgt).1, ?_⟩
  · simpa using h.1
  · simpa using (h.2.1 hgt).2

/-- Claim C10: when no predictions are available (`predictions` argument
`None` with no stored predictions, or an empty frame), `generate_signals`
returns the HOLD signal with confidence 0 and reason
`'No predictions available'` and appends nothing to the signals log; in
every other case it appends exactly one entry. -/
theorem c10_generate_signals_no_predictions (θ : ℚ) (stored : Option (List ℚ))
    (log : List Signal) (cp : ℚ) (preds_arg : Option (List ℚ)) :
    no_pred_signal.action = .HOLD ∧ no_pred_signal.confidence = 0 ∧
    no_pred_signal.reason = .noPredictions ∧
    ((preds_arg = none ∧ stored = none) ∨ preds_arg = some [] ∨
        (preds_arg = none ∧ stored = some []) →
      generate_signals θ stored log cp preds_arg = (no_pred_signal, log)) ∧
    (∀ l : List ℚ, l ≠ [] →
      (preds_arg = some l ∨ (preds_arg = none ∧ stored = some l)) →
      (generate_signals θ stored log cp preds_arg).2 =
        log ++ [(generate_signals θ stored log cp preds_arg).1]) := by
  refine ⟨rfl, rfl, rfl, fun h => ?_, fun l hl h => ?_⟩
  · rcases h with ⟨h1, h2⟩ | h1 | ⟨h1, h2⟩ <;> subst h1 <;>
      first
        | (subst h2; rfl)
        | rfl
  · rcases h with h1 | ⟨h1, h2⟩ <;> subst h1
    · rw [generate_signals_eq_core θ stored log cp l hl]
    · subst h2
      have hemp : l.isEmpty = false := by
        cases l with
        | nil => exact absurd rfl hl
        | cons a t => rfl
      simp [generate_signals, hemp]

/-- Witness for C10 at concrete inputs: no predictions anywhere yields the
no-prediction HOLD signal and an unchanged log; a nonempty prediction list
appends exactly one entry. -/
theorem c10_witness :
    generate_signals (1/50) none [no_pred_signal] 100 none =
      (no_pred_signal, [no_pred_signal]) ∧
    (generate_signals (1/50) none [] 100 (some [101])).2 =
      [] ++ [(generate_signals (1/50) none [] 100 (some [101])).1] := by
  have h := c10_generate_signals_no_predictions (1/50) none [no_pred_signal] 100 none
  have h2 := c10_generate_signals_no_predictions (1/50) none [] 100 (some [101])
  exact ⟨h.2.2.2.1 (Or.inl ⟨rfl, rfl⟩),
    h2.2.2.2.2 [101] (by simp) (Or.inl rfl)⟩

theorem pyInt_intCast (n : ℤ) : pyInt (n : ℚ) = n := by
  simp [pyInt]

theorem trade_exec_conserves (a : Action) (i : ℕ) (cash : ℚ) (shares : ℤ)
    (price : ℚ) :
    (trade_exec a i cash shares price).1 +
      ((trade_exec a i cash shares price).2.1 : ℚ) * price =
    cash + (shares : ℚ) * price := by
  simp only [trade_exec]
  split_ifs <;> push_cast <;> ring

theorem simulate_value_invariant (θ : ℚ) (fc : List ℚ) :
    ∀ (ps : List ℚ) (c : ℚ) (s : ℤ) (i : ℕ),
      ∀ rec ∈ simulate θ fc c s i ps,
        rec.value = rec.cashAfter + (rec.sharesAfter : ℚ) * rec.price ∧
        rec.cashBefore + (rec.sharesBefore : ℚ) * rec.price =
          rec.cashAfter + (rec.sharesAfter : ℚ) * rec.price
  | [], _, _, _ => by intro rec h; simp [simulate] at h
  | p :: rest, c, s, i => by
    intro rec hrec
    rw [simulate] at hrec
    rcases List.mem_cons.mp hrec with h | h
    · subst h
      dsimp only
      exact ⟨rfl, (trade_exec_conserves _ i c s p).symm⟩
    · exact simulate_value_invariant θ fc rest _ _ _ rec h

/-- Claim C1: in every backtest run, every appended `portfolio_values[i]`
equals `cash_i + shares_i * price_i` for the post-trade portfolio state of
step `i`, and a trade neither creates nor destroys value at the traded
price (no fee exists in the source), so the pre-trade and post-trade values
agree; and the result's `portfolio_values` is exactly the per-step value
list. -/
theorem c1_backtest_value_history (fitF : List ℚ → Except String (List ℚ)) (θ : ℚ)
    (horizon : ℕ) (prices : List ℚ) (ts ic : ℚ) :
    (∀ rec ∈ backtest_records fitF θ horizon prices ts ic,
      rec.value = rec.cashAfter + (rec.sharesAfter : ℚ) * rec.price ∧
      rec.cashBefore + (rec.sharesBefore : ℚ) * rec.price =
        rec.cashAfter + (rec.sharesAfter : ℚ) * rec.price) ∧
    (∀ r, backtest fitF θ horizon prices ts ic = .ok r →
      r.portfolio_values =
        (backtest_records fitF θ horizon prices ts ic).map StepRecord.value) := by
  constructor
  · intro rec hrec
    simp only [backtest_records] at hrec
    cases hfit : fitF (prices.take (split_index prices ts)) with
    | error e => rw [hfit] at hrec; simp at hrec
    | ok fc =>
      rw [hfit] at hrec
      exact simulate_value_invariant θ _ _ _ _ _ rec hrec
  · intro r hr
    simp only [backtest] at hr
    cases hfit : fitF (prices.take (split_index prices ts)) with
    | error e => rw [hfit] at hr; simp at hr
    | ok fc =>
      rw [hfit] at hr
      cases htest : prices.drop (split_index prices ts) with
      | nil => rw [htest] at hr; simp at hr
      | cons t0 rest =>
        rw [htest] at hr
        simp only [Except.ok.injEq] at hr
        subst hr
        rfl

theorem split_index_two_half : split_index [1, 1] (1/2) = 1 := by
  have h : ((([1, 1] : List ℚ).length : ℚ) * (1/2)) = ((1 : ℤ) : ℚ) := by
    norm_num
  rw [split_index, h, pyInt_intCast]
  rfl

theorem trade_exec_hold (i : ℕ) (c : ℚ) (s : ℤ) (p : ℚ) :
    trade_exec .HOLD i c s p = (c, s, none) := by
  simp [trade_exec]

theorem backtest_records_hold_example :
    backtest_records (fun _ => Except.ok []) (1/50) 0 [1, 1] (1/2) 10 =
      [rec_flat_example] := by
  have ha : ((generate_signals (1/50) none [] (1:ℚ) (some ([] : List ℚ))).1).action
      = .HOLD := rfl
  rw [backtest_records, split_index_two_half]
  norm_num [simulate, ha, trade_exec_hold, rec_flat_example]

/-- Witness for C1: the single-step run over prices `[1, 1]` with an empty
forecast satisfies the value invariant, and the `backtest` result's
`portfolio_values` is the per-step value list. -/
theorem c1_witness :
    (∀ rec ∈ backtest_records (fun _ => Except.ok []) (1/50) 0 [1, 1] (1/2) 10,
      rec.value = rec.cashAfter + (rec.sharesAfter : ℚ) * rec.price ∧
      rec.cashBefore + (rec.sharesBefore : ℚ) * rec.price =
        rec.cashAfter + (rec.sharesAfter : ℚ) * rec.price) ∧
    (∀ r, backtest (fun _ => Except.ok []) (1/50) 0 [1, 1] (1/2) 10 = .ok r →
      r.portfolio_values =
        (backtest_records (fun _ => Except.ok []) (1/50) 0 [1, 1] (1/2) 10).map
          StepRecord.value) :=
  c1_backtest_value_history (fun _ => Except.ok []) (1/50) 0 [1, 1] (1/2) 10

theorem trade_exec_safe (a : Action) (i : ℕ) {cash : ℚ} {shares : ℤ} {price : ℚ}
    (hc : 0 ≤ cash) (hs : 0 ≤ shares) (hp : 0 < price) :
    0 ≤ (trade_exec a i cash shares price).1 ∧
    0 ≤ (trade_exec a i cash shares price).2.1 ∧
    (∀ t, (trade_exec a i cash shares price).2.2 = some t →
      (t.action = .BUY → t.value ≤ cash) ∧
      (t.action = .SELL → (trade_exec a i cash shares price).2.1 = 0)) := by
  have hq : 0 ≤ cash / price := div_nonneg hc hp.le
  have hfl : ((pyInt (cash / price) : ℤ) : ℚ) ≤ cash / price := by
    rw [pyInt_eq_floor hq]; exact Int.floor_le _
  have hcost : ((pyInt (cash / price) : ℤ) : ℚ) * price ≤ cash := by
    calc ((pyInt (cash / price) : ℤ) : ℚ) * price
        ≤ (cash / price) * price := by
          exact mul_le_mul_of_nonneg_right hfl hp.le
      _ = cash := div_mul_cancel₀ cash hp.ne'
  simp only [trade_exec]
  split_ifs with h1 h2 h3 <;> dsimp only
  · refine ⟨by linarith, by positivity, fun t ht => ?_⟩
    cases ht
    exact ⟨fun _ => hcost, (fun habs => by cases habs)⟩
  · exact ⟨hc, hs, fun t ht => by cases ht⟩
  · refine ⟨?_, le_refl 0, fun t ht => ?_⟩
    · have : (0 : ℚ) ≤ (shares : ℚ) * price :=
        mul_nonneg (by exact_mod_cast hs) hp.le
      linarith
    · cases ht
      exact ⟨(fun habs => by cases habs), (fun _ => rfl)⟩
  · exact ⟨hc, hs, fun t ht => by cases ht⟩

theorem simulate_state_safe (θ : ℚ) (fc : List ℚ) :
    ∀ (ps : List ℚ) (c : ℚ) (s : ℤ) (i : ℕ),
      0 ≤ c → 0 ≤ s → (∀ p ∈ ps, 0 < p) →
      ∀ rec ∈ simulate θ fc c s i ps,
        0 ≤ rec.cashAfter ∧ 0 ≤ rec.sharesAfter ∧
        (∀ t, rec.trade = some t →
          (t.action = .BUY → t.value ≤ rec.cashBefore) ∧
          (t.action = .SELL → rec.sharesAfter = 0))
  | [], _, _, _ => by intro _ _ _ rec h; simp [simulate] at h
  | p :: rest, c, s, i => by
    intro hc hs hp rec hrec
    have hp0 : 0 < p := hp p (List.mem_cons_self p rest)
    have hsafe := trade_exec_safe
      ((generate_signals θ none [] p (some fc)).1).action i hc hs hp0
    rw [simulate] at hrec
    rcases List.mem_cons.mp hrec with h | h
    · subst h
      dsimp only
      exact hsafe
    · exact simulate_state_safe θ fc rest _ _ _ hsafe.1 hsafe.2.1
        (fun q hq => hp q (List.mem_cons_of_mem p hq)) rec h

/-- Claim C9: in every backtest run with nonnegative initial capital and
positive test prices, the simulated portfolio never borrows cash or goes
short: after every step cash and shares are nonnegative, a recorded BUY
spends at most the pre-trade cash, and a recorded SELL leaves exactly zero
shares. -/
theorem c9_backtest_no_borrow_no_short (fitF : List ℚ → Except String (List ℚ)) (θ : ℚ)
    (horizon : ℕ) (prices : List ℚ) (ts ic : ℚ)
    (hic : 0 ≤ ic) (hp : ∀ p ∈ prices, 0 < p) :
    ∀ rec ∈ backtest_records fitF θ horizon prices ts ic,
      0 ≤ rec.cashAfter ∧ 0 ≤ rec.sharesAfter ∧
      (∀ t, rec.trade = some t →
        (t.action = .BUY → t.value ≤ rec.cashBefore) ∧
        (t.action = .SELL → rec.sharesAfter = 0)) := by
  intro rec hrec
  simp only [backtest_records] at hrec
  cases hfit : fitF (prices.take (split_index prices ts)) with
  | error e => rw [hfit] at hrec; simp at hrec
  | ok fc =>
    rw [hfit] at hrec
    refine simulate_state_safe θ _ _ ic 0 0 hic le_rfl ?_ rec hrec
    intro q hq
    exact hp q (List.drop_subset _ _ (List.take_subset _ _ hq))

/-- Witness for C9: the single-step run over prices `[1, 1]` with capital 10
keeps cash and shares nonnegative. -/
theorem c9_witness :
    0 ≤ rec_flat_example.cashAfter ∧
    0 ≤ rec_flat_example.sharesAfter ∧
    (∀ t, rec_flat_example.trade = some t →
      (t.action = .BUY → t.value ≤ rec_flat_example.cashBefore) ∧
      (t.action = .SELL → rec_flat_example.sharesAfter = 0)) := by
  refine c9_backtest_no_borrow_no_short (fun _ => Except.ok []) (1/50) 0 [1, 1] (1/2) 10
    (by norm_num) ?_ _ ?_
  · intro p hp
    rcases List.mem_cons.mp hp with h | h
    · rw [h]; norm_num
    · rcases List.mem_cons.mp h with h2 | h2
      · rw [h2]; norm_num
      · simp at h2
  · rw [backtest_records_hold_example]
    exact List.mem_singleton.mpr rfl

theorem search_step_inv (fit : Order → Option (ℚ × ℚ)) (seen : List Order)
    (st : SearchState) (o : Order) (h : search_inv fit seen st) :
    search_inv fit (seen ++ [o]) (search_step fit st o) := by
  obtain ⟨hco, hnone, hsome⟩ := h
  unfold search_step
  cases hfo : fit o with
  | none =>
    refine ⟨hco, fun hb o' ho' => ?_, fun o₁ hb => ?_⟩
    · rcases List.mem_append.mp ho' with h | h
      · exact hnone hb o' h
      · rw [List.mem_singleton.mp h, hfo]
    · obtain ⟨hmem, a, b, hfit, haic, hmin⟩ := hsome o₁ hb
      refine ⟨List.mem_append_left _ hmem, a, b, hfit, haic, fun o' ho' a' b' hf => ?_⟩
      rcases List.mem_append.mp ho' with h | h
      · exact hmin o' h a' b' hf
      · rw [List.mem_singleton.mp h] at hf
        rw [hfo] at hf
        cases hf
  | some ab =>
    dsimp only
    by_cases hbeat : beats ab.1 st.best_aic = true
    · rw [if_pos hbeat]
      refine ⟨by simp, by simp, fun o₁ hb => ?_⟩
      have ho₁ : o₁ = o := by
        have := hb
        simp at this
        exact this.symm
      subst ho₁
      refine ⟨List.mem_append_right _ (List.mem_singleton.mpr rfl),
        ab.1, ab.2, by rw [hfo], rfl, fun o' ho' a' b' hf => ?_⟩
      rcases List.mem_append.mp ho' with h | h
      · cases haic : st.best_aic with
        | none =>
          have : st.best_order = none := hco.mpr haic
          rw [hnone this o' h] at hf
          cases hf
        | some b₀ =>
          have hlt : ab.1 < b₀ := by
            rw [haic] at hbeat
            simpa [beats] using hbeat
          have hbo : ∃ o₂, st.best_order = some o₂ := by
            cases hbo₂ : st.best_order with
            | none => rw [hco.mp hbo₂] at haic; cases haic
            | some o₂ => exact ⟨o₂, rfl⟩
          obtain ⟨o₂, ho₂⟩ := hbo
          obtain ⟨_, a₂, b₂, hfit₂, haic₂, hmin₂⟩ := hsome o₂ ho₂
          have ha₂ : a₂ = b₀ := by
            rw [haic] at haic₂
            exact (Option.some.inj haic₂).symm
          have := hmin₂ o' h a' b' hf
          exact le_of_lt (lt_of_lt_of_le hlt (ha₂ ▸ this))
      · rw [List.mem_singleton.mp h] at hf
        rw [hfo] at hf
        cases hf
        rfl
    · rw [if_neg hbeat]
      have hbaic : ∃ b₀, st.best_aic = some b₀ := by
        cases haic : st.best_aic with
        | none => rw [haic] at hbeat; exact absurd rfl hbeat
        | some b₀ => exact ⟨b₀, rfl⟩
      obtain ⟨b₀, haic⟩ := hbaic
      have hble : b₀ ≤ ab.1 := by
        rw [haic] at hbeat
        have := (by simpa [beats] using hbeat : ¬ ab.1 < b₀)
        exact le_of_not_lt this
      have hbo : ∃ o₂, st.best_order = some o₂ := by
        cases hbo₂ : st.best_order with
        | none => rw [hco.mp hbo₂] at haic; cases haic
        | some o₂ => exact ⟨o₂, rfl⟩
      obtain ⟨o₂, ho₂⟩ := hbo
      refine ⟨by simp [ho₂, haic], fun hb => ?_, fun o₁ hb => ?_⟩
      · rw [ho₂] at hb; cases hb
      · have ho₁ : o₁ = o₂ := by
          rw [ho₂] at hb
          exact (Option.some.inj hb).symm
        subst ho₁
        obtain ⟨hmem, a₂, b₂, hfit₂, haic₂, hmin₂⟩ := hsome o₁ ho₂
        have ha₂ : a₂ = b₀ := by
          rw [haic] at haic₂
          exact (Option.some.inj haic₂).symm
        refine ⟨List.mem_append_left _ hmem, a₂, b₂, hfit₂, haic₂,
          fun o' ho' a' b' hf => ?_⟩
        rcases List.mem_append.mp ho' with h | h
        · exact hmin₂ o' h a' b' hf
        · rw [List.mem_singleton.mp h] at hf
          rw [hfo] at hf
          cases hf
          exact ha₂ ▸ hble

theorem search_fold_inv (fit : Order → Option (ℚ × ℚ)) :
    ∀ (l seen : List Order) (st : SearchState), search_inv fit seen st →
      search_inv fit (seen ++ l) (l.foldl (search_step fit) st)
  | [], seen, st => by simpa using id
  | o :: l, seen, st => by
    intro h
    have h1 := search_step_inv fit seen st o h
    have h2 := search_fold_inv fit l (seen ++ [o]) (search_step fit st o) h1
    simpa [List.append_assoc] using h2

theorem search_inv_init (fit : Order → Option (ℚ × ℚ)) :
    search_inv fit [] init_search := by
  refine ⟨by simp [init_search], fun _ o h => absurd h (List.not_mem_nil o),
    fun o h => ?_⟩
  simp [init_search] at h

/-- Claim C3: whenever at least one candidate order fits successfully, the
selected `best_order` is a successfully fitted grid candidate whose AIC is
less than or equal to the AIC of every successfully fitted candidate of the
run. -/
theorem c3_best_order_minimizes_aic (fit : Order → Option (ℚ × ℚ))
    (is_stationary : Bool) (max_p max_d max_q : ℕ)
    (h : ∃ o ∈ candidate_orders max_p max_q (d_range is_stationary max_d),
      (fit o).isSome) :
    ∃ o a b, (find_optimal_order fit is_stationary max_p max_d max_q).best_order
        = some o ∧
      o ∈ candidate_orders max_p max_q (d_range is_stationary max_d) ∧
      fit o = some (a, b) ∧
      ∀ o' ∈ candidate_orders max_p max_q (d_range is_stationary max_d),
        ∀ a' b', fit o' = some (a', b') → a ≤ a' := by
  have hinv := search_fold_inv fit
    (candidate_orders max_p max_q (d_range is_stationary max_d)) [] init_search
    (search_inv_init fit)
  rw [List.nil_append] at hinv
  obtain ⟨hco, hnone, hsome⟩ := hinv
  cases hbest : (find_optimal_order fit is_stationary max_p max_d max_q).best_order with
  | none =>
    obtain ⟨o, hmem, hsm⟩ := h
    have := hnone hbest o hmem
    rw [this] at hsm
    cases hsm
  | some o =>
    obtain ⟨hmem, a, b, hfit, _, hmin⟩ := hsome o hbest
    exact ⟨o, a, b, rfl, hmem, hfit, hmin⟩

/-- Witness for C3 at a concrete run: two successful candidates with AICs 5
and 3; the incumbent minimizes AIC over successes. -/
theorem c3_witness :
    ∃ o a b,
      (find_optimal_order
        (fun o => if o = { p := 1, d := 0, q := 0 } then some (5, 7)
          else if o = { p := 0, d := 0, q := 1 } then some (3, 4) else none)
        true 1 1 1).best_order = some o ∧
      o ∈ candidate_orders 1 1 (d_range true 1) ∧
      (fun o => if o = { p := 1, d := 0, q := 0 } then some (5, 7)
        else if o = { p := 0, d := 0, q := 1 } then some ((3 : ℚ), (4 : ℚ)) else none) o
        = some (a, b) ∧
      ∀ o' ∈ candidate_orders 1 1 (d_range true 1),
        ∀ a' b',
          (fun o => if o = { p := 1, d := 0, q := 0 } then some (5, 7)
            else if o = { p := 0, d := 0, q := 1 } then some ((3 : ℚ), (4 : ℚ))
            else none) o' = some (a', b') → a ≤ a' :=
  c3_best_order_minimizes_aic _ true 1 1 1
    ⟨{ p := 0, d := 0, q := 1 }, by decide, by decide⟩

/-- Claim C4 counterexample: when every candidate in the grid fails to fit,
`find_optimal_order` does not raise any typed error — it returns the initial
state unchanged: `best_order = None`, `best_model = None`, an empty results
list.  No `ModelSelectionFailure` (or any exception) exists on this path in
the source. -/
theorem c4_counterexample :
    find_optimal_order (fun _ => none) true 3 2 3 = init_search ∧
    (find_optimal_order (fun _ => none) true 3 2 3).best_order = none ∧
    (find_optimal_order (fun _ => none) true 3 2 3).results = [] := by
  refine ⟨?_, ?_, ?_⟩ <;> decide

theorem search_fold_all_fail (fit : Order → Option (ℚ × ℚ)) :
    ∀ (l : List Order) (st : SearchState), (∀ o ∈ l, fit o = none) →
      l.foldl (search_step fit) st = st
  | [], _ => fun _ => rfl
  | o :: l, st => by
    intro h
    have ho : fit o = none := h o (List.mem_cons_self o l)
    have hstep : search_step fit st o = st := by
      unfold search_step
      rw [ho]
    rw [List.foldl_cons, hstep]
    exact search_fold_all_fail fit l st fun o' h' => h o' (List.mem_cons_of_mem o h')

/-- Claim C4 (amended): when every candidate `(p, d, q)` in the grid fails
to fit, `find_optimal_order` returns normally with the untouched initial
state — `best_order = None`, `best_model = None` and an empty candidate
results list — rather than failing with a typed `ModelSelectionFailure`. -/
theorem c4_amended_all_fail_returns_none (fit : Order → Option (ℚ × ℚ))
    (is_stationary : Bool) (max_p max_d max_q : ℕ)
    (h : ∀ o ∈ candidate_orders max_p max_q (d_range is_stationary max_d),
      fit o = none) :
    find_optimal_order fit is_stationary max_p max_d max_q = init_search :=
  search_fold_all_fail fit _ init_search h

/-- Witness for the amended C4 at a concrete all-failing grid. -/
theorem c4_witness :
    find_optimal_order (fun _ => none) true 2 1 2 = init_search :=
  c4_amended_all_fail_returns_none (fun _ => none) true 2 1 2 fun _ _ => rfl

theorem alt_prices_length : alt_prices.length = 100 := rfl

theorem split_index_alt_prices : split_index alt_prices (4/5) = 80 := by
  have h : ((alt_prices.length : ℚ) * (4/5)) = ((80 : ℤ) : ℚ) := by
    rw [alt_prices_length]
    norm_num
  rw [split_index, h, pyInt_intCast]
  rfl

theorem alt_prices_drop : alt_prices.drop 80 = 3 :: List.replicate 19 3 := rfl

/-- Claim C5 counterexample: a 100-point series whose 80-point train window
alternates between 1 and 2 (non-constant, so the real fitting pipeline has
no degenerate input; its successful fit is abstracted as `.ok [1]`) leaves
a 20-point test window, and with `horizon = 20` we have
`len(test) ≤ horizon`; the source does not fail with
`InsufficientDataError` (no such check exists) — it simulates zero steps
and returns a degenerate results dict with empty `portfolio_values`, no
trades, `final_value = initial_capital` and zero total return. -/
theorem c5_counterexample :
    (1 : ℚ) ∈ alt_prices.take (split_index alt_prices (4/5)) ∧
    (2 : ℚ) ∈ alt_prices.take (split_index alt_prices (4/5)) ∧
    (alt_prices.drop (split_index alt_prices (4/5))).length ≤ 20 ∧
    (backtest (fun _ => .ok [1]) (1/50) 20 alt_prices (4/5) 10000).map
      (fun r => (r.portfolio_values, r.trades, r.final_value, r.total_return)) =
      Except.ok ([], [], 10000, 0) := by
  have hgl : ((3 : ℚ) :: List.replicate 19 3).getLast
      (List.cons_ne_nil 3 (List.replicate 19 3)) = 3 := rfl
  have hrecs : backtest_records (fun _ => Except.ok [1]) (1/50) 20 alt_prices
      (4/5) 10000 = [] := by
    rw [backtest_records, split_index_alt_prices, alt_prices_drop]
    rfl
  refine ⟨?_, ?_, ?_, ?_⟩
  · rw [split_index_alt_prices]
    decide
  · rw [split_index_alt_prices]
    decide
  · rw [split_index_alt_prices, alt_prices_drop]
    simp
  · simp only [backtest, split_index_alt_prices, alt_prices_drop, hrecs, hgl]
    norm_num
    rfl

/-- Claim C5 (amended): `backtest` splits the series chronologically into
`train = prices[:int(len*train_size)]` and `test = the remainder`, but
performs no `InsufficientDataError` check and raises no typed error at all:
an exception raised while fitting on the train window (such as `adfuller`'s
`ValueError('Invalid input, x is constant')` on a constant train) propagates
uncaught; after a successful fit, an empty test window raises an untyped
`IndexError` at `test_data.iloc[-1]`; and when the fit succeeds and
`0 < len(test) ≤ horizon`, it simulates zero steps and returns a degenerate
result — empty `portfolio_values`, no trades,
`final_value = initial_capital`, `total_return = 0`. -/
theorem c5_amended_short_test_degenerate
    (fitF : List ℚ → Except String (List ℚ)) (θ : ℚ) (horizon : ℕ)
    (prices : List ℚ) (ts ic : ℚ) :
    prices.take (split_index prices ts) ++ prices.drop (split_index prices ts)
        = prices ∧
    (∀ e, fitF (prices.take (split_index prices ts)) = .error e →
      backtest fitF θ horizon prices ts ic = .error e) ∧
    (∀ fc, fitF (prices.take (split_index prices ts)) = .ok fc →
      prices.drop (split_index prices ts) = [] →
      backtest fitF θ horizon prices ts ic = .error "IndexError") ∧
    (∀ fc, fitF (prices.take (split_index prices ts)) = .ok fc →
      prices.drop (split_index prices ts) ≠ [] →
      (prices.drop (split_index prices ts)).length ≤ horizon →
      ∃ r, backtest fitF θ horizon prices ts ic = .ok r ∧
        r.portfolio_values = [] ∧ r.trades = [] ∧ r.final_value = ic ∧
        r.total_return = 0) := by
  refine ⟨List.take_append_drop _ _, fun e he => ?_, fun fc hfc hte => ?_,
    fun fc hfc hne hlen => ?_⟩
  · simp only [backtest, he]
  · simp only [backtest, hfc, hte]
  · have hsub : (prices.drop (split_index prices ts)).length - horizon = 0 :=
      Nat.sub_eq_zero_of_le hlen
    have hrecs : backtest_records fitF θ horizon prices ts ic = [] := by
      simp only [backtest_records, hfc, hsub, List.take_zero]
      rfl
    cases htest : prices.drop (split_index prices ts) with
    | nil => exact absurd htest hne
    | cons t0 rest =>
      simp only [backtest, hfc, hrecs, htest]
      exact ⟨_, rfl, by simp, by simp, by simp, by simp⟩

/-- Witness for the amended C5: the concrete 100-point run of the
counterexample, with its successful fit, satisfies the short-test clause of
the amended statement. -/
theorem c5_witness :
    ∃ r, backtest (fun _ => Except.ok [1]) (1/50) 20 alt_prices (4/5) 10000
        = .ok r ∧
      r.portfolio_values = [] ∧ r.trades = [] ∧ r.final_value = 10000 ∧
      r.total_return = 0 :=
  (c5_amended_short_test_degenerate (fun _ => Except.ok [1]) (1/50) 20
      alt_prices (4/5) 10000).2.2.2 [1] rfl
    (by
      rw [split_index_alt_prices, alt_prices_drop]
      exact List.cons_ne_nil 3 (List.replicate 19 3))
    (by
      rw [split_index_alt_prices, alt_prices_drop]
      simp)

/-- Claim C7: `predict_prices` with a fitted model and horizon `H` returns
`H` predicted prices whose timestamps start at the current wall-clock day
(`pd.Timestamp.today()`) and advance daily — `date[i] = today + i` — and
not at the day after the last observed price of the fitted series, which is
never consulted (it is not even an input of the date computation). -/
theorem c7_forecast_dates_start_today (fc : ℕ → List ℚ) (horizon today : ℕ)
    (steps_opt : Option ℕ)
    (hlen : (fc (steps_opt.getD horizon)).length = steps_opt.getD horizon) :
    ∃ frame, predict_prices (some fc) horizon today steps_opt = .ok frame ∧
      frame.prediction.length = steps_opt.getD horizon ∧
      frame.date = (List.range (steps_opt.getD horizon)).map (fun i => today + i) ∧
      (0 < steps_opt.getD horizon → frame.date.head? = some today) := by
  refine ⟨_, rfl, hlen, rfl, ?_⟩
  intro hpos
  obtain ⟨n, hn⟩ := Nat.exists_eq_succ_of_ne_zero (Nat.pos_iff_ne_zero.mp hpos)
  dsimp only
  rw [hn, List.range_succ_eq_map]
  simp

/-- Witness for C7 at a concrete input: three steps from day 700 give dates
700, 701, 702. -/
theorem c7_witness :
    ∃ frame, predict_prices (some fun n => List.replicate n (1 : ℚ)) 5 700
        (some 3) = .ok frame ∧
      frame.prediction.length = (some 3).getD 5 ∧
      frame.date = (List.range ((some 3).getD 5)).map (fun i => 700 + i) ∧
      (0 < (some 3).getD 5 → frame.date.head? = some 700) :=
  c7_forecast_dates_start_today (fun n => List.replicate n 1) 5 700 (some 3)
    (by simp)

theorem consecutive_returns_single (t : TradeRec) :
    consecutive_returns [t] = [] := rfl

/-- Claim C8 counterexample: `calculate_portfolio_performance` with a
single-entry trading history returns `sharpe_ratio = 0` — a plain numeric
value of type ℚ, not an "undefined" sentinel — and its `total_return` is
`(current_value - initial_capital)/initial_capital = 1/5 ≠ 0`, not 0 as the
claim requires for a single-point series. -/
theorem c8_counterexample :
    (calculate_portfolio_performance (fun _ => 0) (fun _ => 0) 10000
        (some 12000)
        [{ symbol := "A", price := 100, expected_return := some (1/10) }]).map
      (fun m => (m.sharpe_ratio, m.total_return)) = some (0, 1/5) ∧
    ((1 : ℚ)/5) ≠ 0 := by
  constructor
  · norm_num [calculate_portfolio_performance, consecutive_returns_single]
  · norm_num

/-- Claim C8 (amended): with portfolio details available,
`calculate_portfolio_performance` never raises: for every trading history
it returns a metrics dict whose `total_return` is
`(current_value - initial_capital)/initial_capital` regardless of the
history length, and whose `sharpe_ratio` is the plain number 0 — there is
no "undefined" sentinel in the source — whenever the history yields no
same-symbol consecutive returns (in particular for fewer than two entries)
or the standard deviation of those returns is not positive. -/
theorem c8_amended_sharpe_plain_zero (mean std : List ℚ → ℚ) (ic cv : ℚ)
    (hist : List TradeRec) :
    ∃ m, calculate_portfolio_performance mean std ic (some cv) hist = some m ∧
      m.total_return = (cv - ic) / ic ∧
      (consecutive_returns hist = [] ∨ std (consecutive_returns hist) ≤ 0 →
        m.sharpe_ratio = 0) := by
  refine ⟨_, rfl, rfl, ?_⟩
  intro h
  dsimp only
  by_cases hl : 0 < hist.length
  · rw [if_pos hl]
    rcases h with h | h
    · rw [h]
      rfl
    · by_cases he : (consecutive_returns hist).isEmpty = true
      · rw [if_pos he]
      · rw [if_neg he, if_neg (not_lt.mpr h)]
  · rw [if_neg hl]

/-- Witness for the amended C8: a two-trade history on distinct symbols
(no same-symbol consecutive returns) with capital 10000 and market value
12000. -/
theorem c8_witness :
    ∃ m, calculate_portfolio_performance (fun _ => 0) (fun _ => 0) 10000
        (some 12000)
        [{ symbol := "A", price := 100, expected_return := some (1/10) },
         { symbol := "B", price := 200, expected_return := none }] = some m ∧
      m.total_return = ((12000 : ℚ) - 10000) / 10000 ∧
      m.sharpe_ratio = 0 := by
  obtain ⟨m, hm, ht, hs⟩ := c8_amended_sharpe_plain_zero (fun _ => 0)
    (fun _ => 0) 10000 12000
    [{ symbol := "A", price := 100, expected_return := some (1/10) },
     { symbol := "B", price := 200, expected_return := none }]
  refine ⟨m, hm, ht, hs (Or.inl ?_)⟩
  rfl

end ARIMA
